import Mathlib

/-!
Verification development for the MonkataCraft browser content layer:
the ContentStore (src/js/content.js) and the EmailService module.
JavaScript data objects and JSON documents are modelled by the `Json`
inductive below; the browser built-ins JSON.parse / JSON.stringify are
modelled by the executable printer/parser pair `Json.stringify` /
`Json.parse`.
-/

namespace MonkataCraft

/-- JSON values, doubling as the JavaScript data objects the
ContentStore keeps in memory.  JavaScript numbers are floating point;
the repository's content data stores only strings and booleans, so JSON
numbers are modelled as integers (fractions and exponents are outside
the model). -/
inductive Json where
  | null : Json
  | bool (b : Bool) : Json
  | num (n : Int) : Json
  | str (s : String) : Json
  | arr (items : List Json) : Json
  | obj (fields : List (String × Json)) : Json
deriving Repr

/-- Property lookup on a JavaScript object, modelled as an association
list (JS object keys are unique and insertion-ordered). -/
def getField : List (String × Json) → String → Option Json
  | [], _ => none
  | (k, v) :: rest, key => if k = key then some v else getField rest key

/-- Property assignment: replace the value at an existing key in place,
or append a new key at the end — matching JS property-update order. -/
def setField : List (String × Json) → String → Json → List (String × Json)
  | [], key, v => [(key, v)]
  | (k, w) :: rest, key, v =>
      if k = key then (k, v) :: rest else (k, w) :: setField rest key v

/-- Field access `j.key` on an arbitrary value: undefined (`none`) on
non-objects. -/
def Json.get (j : Json) (key : String) : Option Json :=
  match j with
  | .obj fs => getField fs key
  | _ => none

/-- JavaScript truthiness of a value. -/
def jsTruthy : Json → Bool
  | .null => false
  | .bool b => b
  | .num n => n != 0
  | .str s => s != ""
  | .arr _ => true
  | .obj _ => true

/-- The opening brace character, by code point. -/
def lbrace : Char := Char.ofNat 123

/-- The closing brace character, by code point. -/
def rbrace : Char := Char.ofNat 125

/-- Escape one character for a JSON string literal, as JSON.stringify
does.  The common escapes are modelled; other control characters (which
JSON.stringify would emit as unicode escapes) are left raw, and the
parser below accepts them raw. -/
def escChar (c : Char) : List Char :=
  if c = '"' then ['\\', '"']
  else if c = '\\' then ['\\', '\\']
  else if c = '\n' then ['\\', 'n']
  else if c = '\t' then ['\\', 't']
  else if c = '\r' then ['\\', 'r']
  else if c = Char.ofNat 8 then ['\\', 'b']
  else if c = Char.ofNat 12 then ['\\', 'f']
  else [c]

/-- Escape a whole string body. -/
def escStr : List Char → List Char
  | [] => []
  | c :: cs => escChar c ++ escStr cs

/-- Decimal digit character for `n % 10`. -/
def digitChar (n : Nat) : Char := Char.ofNat (48 + n % 10)

/-- Print a natural number in decimal, most significant digit first.
Fuel-driven so the definition stays kernel-computable; `natChars`
supplies sufficient fuel. -/
def natCharsAux : Nat → Nat → List Char → List Char
  | 0, _, acc => acc
  | fuel + 1, n, acc =>
      if n < 10 then digitChar n :: acc
      else natCharsAux fuel (n / 10) (digitChar n :: acc)

/-- Decimal digits of a natural number. -/
def natChars (n : Nat) : List Char := natCharsAux (n + 1) n []

/-- Decimal form of an integer. -/
def intChars : Int → List Char
  | .ofNat n => natChars n
  | .negSucc m => '-' :: natChars (m + 1)

mutual
/-- JSON.stringify, modelled compactly.  The source calls
`JSON.stringify(data, null, 2)`, which only adds inter-token
whitespace; the parse result of either form is identical, and the
compact form is used throughout the model. -/
def encVal : Json → List Char
  | .null => "null".data
  | .bool true => "true".data
  | .bool false => "false".data
  | .num n => intChars n
  | .str s => '"' :: (escStr s.data ++ ['"'])
  | .arr xs => '[' :: (encItems xs ++ [']'])
  | .obj fs => lbrace :: (encFields fs ++ [rbrace])

/-- Comma-separated array items. -/
def encItems : List Json → List Char
  | [] => []
  | [x] => encVal x
  | x :: y :: xs => encVal x ++ ',' :: encItems (y :: xs)

/-- Comma-separated `"key":value` object members. -/
def encFields : List (String × Json) → List Char
  | [] => []
  | [(k, v)] => '"' :: (escStr k.data ++ ('"' :: (':' :: encVal v)))
  | (k, v) :: f :: fs =>
      '"' :: (escStr k.data ++ ('"' :: (':' ::
        (encVal v ++ (',' :: encFields (f :: fs))))))
end

/-- The serialized form of a value. -/
def Json.stringify (j : Json) : String := String.mk (encVal j)

/-- Decode the character following a backslash in a JSON string. -/
def unescChar (c : Char) : Option Char :=
  if c = '"' then some '"'
  else if c = '\\' then some '\\'
  else if c = '/' then some '/'
  else if c = 'n' then some '\n'
  else if c = 't' then some '\t'
  else if c = 'r' then some '\r'
  else if c = 'b' then some (Char.ofNat 8)
  else if c = 'f' then some (Char.ofNat 12)
  else none

/-- Parse the body of a JSON string literal (after the opening quote) up
to and including the closing quote; returns the decoded characters and
the remaining input. -/
def parseStrBody : Nat → List Char → Option (List Char × List Char)
  | 0, _ => none
  | _ + 1, [] => none
  | fuel + 1, c :: rest =>
      if c = '"' then some ([], rest)
      else if c = '\\' then
        match rest with
        | [] => none
        | e :: rest' =>
            match unescChar e with
            | none => none
            | some d =>
                match parseStrBody fuel rest' with
                | none => none
                | some (s, r) => some (d :: s, r)
      else
        match parseStrBody fuel rest with
        | none => none
        | some (s, r) => some (c :: s, r)

/-- Split leading decimal digits off the input. -/
def takeDigits : List Char → List Char × List Char
  | [] => ([], [])
  | c :: rest =>
      if c.isDigit then
        let (ds, r) := takeDigits rest
        (c :: ds, r)
      else ([], c :: rest)

/-- Numeric value of a digit list, most significant digit first. -/
def digitsVal : List Char → Nat → Nat
  | [], acc => acc
  | c :: rest, acc => digitsVal rest (acc * 10 + (c.toNat - 48))

mutual
/-- JSON.parse, modelled over the grammar the printer above emits:
literals, integers, strings with the common escapes, arrays and
objects; no inter-token whitespace (JSON.parse additionally skips
whitespace, on which no behaviour in this development depends).  Fuel
decreases at every recursive step and every step consumes at least one
character, so input length + 1 fuel (supplied by `Json.parse`) always
suffices. -/
def parseVal : Nat → List Char → Option (Json × List Char)
  | 0, _ => none
  | _ + 1, [] => none
  | fuel + 1, c :: rest =>
      if c = 'n' then
        match rest with
        | 'u' :: 'l' :: 'l' :: r => some (.null, r)
        | _ => none
      else if c = 't' then
        match rest with
        | 'r' :: 'u' :: 'e' :: r => some (.bool true, r)
        | _ => none
      else if c = 'f' then
        match rest with
        | 'a' :: 'l' :: 's' :: 'e' :: r => some (.bool false, r)
        | _ => none
      else if c = '"' then
        match parseStrBody (rest.length + 1) rest with
        | none => none
        | some (s, r) => some (.str (String.mk s), r)
      else if c = '-' then
        match takeDigits rest with
        | ([], _) => none
        | (ds, r) => some (.num (-(digitsVal ds 0 : Int)), r)
      else if c.isDigit then
        match takeDigits rest with
        | (ds, r) => some (.num (digitsVal (c :: ds) 0), r)
      else if c = '[' then
        match rest with
        | [] => none
        | d :: r0 =>
            if d = ']' then some (.arr [], r0)
            else
              match parseVal fuel rest with
              | none => none
              | some (x, r) =>
                  match parseArrTail fuel r with
                  | none => none
                  | some (xs, r') => some (.arr (x :: xs), r')
      else if c = lbrace then
        match rest with
        | [] => none
        | d :: r0 =>
            if d = rbrace then some (.obj [], r0)
            else
              match parseMember fuel rest with
              | none => none
              | some (kv, r) =>
                  match parseObjTail fuel r with
                  | none => none
                  | some (kvs, r') => some (.obj (kv :: kvs), r')
      else none

/-- After one array item: expect `]` or `,` followed by more items. -/
def parseArrTail : Nat → List Char → Option (List Json × List Char)
  | 0, _ => none
  | _ + 1, [] => none
  | fuel + 1, c :: rest =>
      if c = ']' then some ([], rest)
      else if c = ',' then
        match parseVal fuel rest with
        | none => none
        | some (x, r) =>
            match parseArrTail fuel r with
            | none => none
            | some (xs, r') => some (x :: xs, r')
      else none

/-- One `"key":value` object member. -/
def parseMember : Nat → List Char → Option ((String × Json) × List Char)
  | 0, _ => none
  | _ + 1, [] => none
  | fuel + 1, c :: rest =>
      if c = '"' then
        match parseStrBody (rest.length + 1) rest with
        | none => none
        | some (k, r) =>
            match r with
            | ':' :: r1 =>
                match parseVal fuel r1 with
                | none => none
                | some (v, r2) => some ((String.mk k, v), r2)
            | _ => none
      else none

/-- After one object member: expect the closing brace or `,` followed by
more members. -/
def parseObjTail : Nat → List Char → Option (List (String × Json) × List Char)
  | 0, _ => none
  | _ + 1, [] => none
  | fuel + 1, c :: rest =>
      if c = rbrace then some ([], rest)
      else if c = ',' then
        match parseMember fuel rest with
        | none => none
        | some (kv, r) =>
            match parseObjTail fuel r with
            | none => none
            | some (kvs, r') => some (kv :: kvs, r')
      else none
end

/-- JSON.parse at the top level: the whole input must be one value. -/
def Json.parse (s : String) : Option Json :=
  match parseVal (s.data.length + 1) s.data with
  | some (j, []) => some j
  | _ => none

/-! ContentStore (src/js/content.js).  The in-memory cache `_data` is a
`Json` value (`Option Json` where nullability matters); localStorage
persistence (`_save`) is best-effort and mirrors `_data`, so the model
tracks `_data` itself. -/

/-- Coerce one top-level field to an empty array when it is not an
array — one `if (!Array.isArray(obj.k)) obj.k = []` step of
`_ensureStructure`. -/
def ensureArr (fs : List (String × Json)) (key : String) :
    List (String × Json) :=
  match getField fs key with
  | some (.arr _) => fs
  | _ => setField fs key (.arr [])

/-- `_ensureStructure` (content.js lines 178–187): replace a non-object
by an empty object, then coerce each of the four collection fields to an
empty array when missing or non-array.  (A JS array would pass the
`typeof` check and receive the four named properties; plain JSON cannot
represent an array carrying named fields, so a top-level array
normalizes to an object here — the four collection reads agree either
way.) -/
def ensureStructure (j : Json) : Json :=
  let fs := match j with
    | .obj fs => fs
    | _ => ([] : List (String × Json))
  .obj (ensureArr (ensureArr (ensureArr (ensureArr fs
    "videos") "screenshots") "posts") "streams")

/-- Whether a possibly-absent field value is an array. -/
def isArrOpt : Option Json → Bool
  | some (.arr _) => true
  | _ => false

/-- A snapshot is structurally valid when it is an object whose four
collection fields are all arrays. -/
def isValidStructure (j : Json) : Bool :=
  match j with
  | .obj fs =>
      isArrOpt (getField fs "videos") && isArrOpt (getField fs "screenshots") &&
        isArrOpt (getField fs "posts") && isArrOpt (getField fs "streams")
  | _ => false

/-- `TYPE_MAP`: singular caller-facing type names to plural collection
keys. -/
def TYPE_MAP (t : String) : Option String :=
  if t = "video" then some "videos"
  else if t = "screenshot" then some "screenshots"
  else if t = "post" then some "posts"
  else if t = "stream" then some "streams"
  else none

/-- The plural collection keys in the order `update`/`delete` scan them
(`Object.keys(TYPE_MAP).map(...)`). -/
def collKeys : List String := ["videos", "screenshots", "posts", "streams"]

/-- `getAll(type)` (content.js lines 284–288): defensive copy of the
named collection; unknown type or uninitialised store gives `[]`.
`(_data[key] || []).slice()`: a missing or falsy field gives `[]`; a
truthy non-array field would throw in JS on `.slice()` and is
unreachable for a store maintained through this API, so the model also
returns `[]` there. -/
def getAll (d : Option Json) (type : String) : List Json :=
  match TYPE_MAP type, d with
  | some key, some data =>
      match data.get key with
      | some (.arr xs) => xs
      | _ => []
  | _, _ => []

/-! Bootstrap (`init`, content.js lines 213–261).  The environment
records the outcome of each external interaction: the localStorage
read, and the three fetches (config.json, the Cloudinary mirror, the
bundled seed content.json). -/

/-- Outcome of one `fetch`: network rejection, a response with
`ok = false`, or an `ok` response carrying a body. -/
inductive FetchOutcome where
  | netFail : FetchOutcome
  | notOk : FetchOutcome
  | ok (body : String) : FetchOutcome

/-- The environment `init` runs against. -/
structure InitEnv where
  localStore : Option String
  storedCloudUrl : Option String
  configFetch : FetchOutcome
  mirrorFetch : FetchOutcome
  seedFetch : FetchOutcome

/-- `_load()` (content.js lines 155–166): localStorage value present,
truthy and parseable.  A parse throw is caught and reported as absent. -/
def loadLocal (store : Option String) : Option Json :=
  match store with
  | none => none
  | some raw => if raw = "" then none else Json.parse raw

/-- `fetch(p).then(r => r.ok ? r.json() : ... )` with the lenient
`: \x7b\x7d` arm used for config.json and the seed file: a not-ok
response yields the empty object, a network rejection or a body that is
not JSON yields a rejection (`Except.error`). -/
def fetchJsonOrEmpty (fo : FetchOutcome) : Except Unit Json :=
  match fo with
  | .netFail => .error ()
  | .notOk => .ok (.obj [])
  | .ok body =>
      match Json.parse body with
      | some j => .ok j
      | none => .error ()

/-- The mirror fetch (content.js lines 235–239): a not-ok response
throws (`Cloud HTTP ...`), so only an ok response with a JSON body
succeeds. -/
def fetchJsonStrict (fo : FetchOutcome) : Except Unit Json :=
  match fo with
  | .netFail => .error ()
  | .notOk => .error ()
  | .ok body =>
      match Json.parse body with
      | some j => .ok j
      | none => .error ()

/-- Truthiness of a nullable localStorage string (null and the empty
string are falsy). -/
def optTruthy (o : Option String) : Bool :=
  match o with
  | some s => s != ""
  | none => false

/-- The promise chain `init` builds when no local data exists:
config.json discovery, then — when a cloud URL is known — the mirror
fetch with seed-file fallback, else the seed file directly.  A
rejection anywhere surfaces as `Except.error` and lands in `init`'s
final `.catch`. -/
def initFetch (env : InitEnv) : Except Unit Json :=
  match fetchJsonOrEmpty env.configFetch with
  | .error _ => .error ()
  | .ok config =>
      let fromConfig : Bool :=
        match config.get "cloudBackupUrl" with
        | some v => jsTruthy v
        | none => false
      let hasCloudUrl := fromConfig || optTruthy env.storedCloudUrl
      if hasCloudUrl then
        match fetchJsonStrict env.mirrorFetch with
        | .ok j => .ok j
        | .error _ => fetchJsonOrEmpty env.seedFetch
      else fetchJsonOrEmpty env.seedFetch

/-- `init()` (content.js lines 213–261).  Local store first; otherwise
the `initFetch` chain, with the outer `.catch` resolving with an empty
ensured snapshot on any uncaught rejection.  The promise executor never
calls `reject`, so the result is always `Except.ok`; the resolved value
is the new `_data`. -/
def ContentStore.init (env : InitEnv) : Except String Json :=
  match loadLocal env.localStore with
  | some j => .ok (ensureStructure j)
  | none =>
      match initFetch env with
      | .ok j => .ok (ensureStructure j)
      | .error _ => .ok (ensureStructure (.obj []))

/-! Import / export (content.js lines 450–510). -/

/-- `exportJSON()`: the downloaded bytes are the serialized snapshot
(the Blob/anchor download plumbing and the date-stamped filename are
browser UI, not data). -/
def exportJSON (d : Json) : String := Json.stringify d

/-- Outcome of handing a file to `importJSON`: no file at all, a
FileReader failure, or the file's text. -/
inductive FileInput where
  | noFile : FileInput
  | readError : FileInput
  | text (s : String) : FileInput

/-- `importJSON(file)` (content.js lines 484–510): parse the file text
as JSON; on success replace `_data` (and localStorage) with the ensured
parse result and resolve with it; on parse failure (or a missing file,
or a read error) reject and leave `_data` untouched.  Returns the
settled promise and the `_data` after the call. -/
def importJSON (d : Json) (file : FileInput) : Except String Json × Json :=
  match file with
  | .noFile => (.error "No file provided.", d)
  | .readError => (.error "Failed to read file.", d)
  | .text s =>
      match Json.parse s with
      | some json =>
          let d' := ensureStructure json
          (.ok d', d')
      | none => (.error "Invalid JSON file.", d)

/-! Write operations (content.js lines 346–440). -/

/-- Truthiness of a possibly-undefined field value. -/
def jsTruthyOpt (o : Option Json) : Bool :=
  match o with
  | some v => jsTruthy v
  | none => false

/-- Property assignment on a value; assignment to a property of a
non-object would throw in strict mode and is unreachable where this is
used. -/
def Json.set (j : Json) (key : String) (v : Json) : Json :=
  match j with
  | .obj fs => .obj (setField fs key v)
  | _ => j

/-- `arr[i].id === id`: strict equality of the entry's `id` field
against the id string (only a string field can compare equal). -/
def entryIdIs (e : Json) (id : String) : Bool :=
  match e.get "id" with
  | some (.str s) => s == id
  | _ => false

/-- The in-place shallow merge of `update`:
`for f of Object.keys(updatedFields): entry[f] = updatedFields[f]`.
A non-object entry cannot take property assignments; entries in any
store built through this API are objects. -/
def mergeFields (e : Json) (fields : List (String × Json)) : Json :=
  match e with
  | .obj fs => .obj (fields.foldl (fun acc kv => setField acc kv.1 kv.2) fs)
  | _ => e

/-- Scan one collection array for the first `id` match and merge the
fields into it, returning the updated array and the updated entry. -/
def updateList (id : String) (fields : List (String × Json)) :
    List Json → Option (List Json × Json)
  | [] => none
  | e :: rest =>
      if entryIdIs e id then
        let e' := mergeFields e fields
        some (e' :: rest, e')
      else
        match updateList id fields rest with
        | some (ys, e') => some (e :: ys, e')
        | none => none

/-- The `update` scan over the collections in `collKeys` order; a
missing or non-array collection value is skipped (in JS the falsy case
hits `continue`, and the `for` loop over a truthy non-array's undefined
`length` never runs). -/
def updateScan (fs : List (String × Json)) (id : String)
    (fields : List (String × Json)) :
    List String → Option (List (String × Json) × Json)
  | [] => none
  | k :: ks =>
      match getField fs k with
      | some (.arr xs) =>
          (match updateList id fields xs with
           | some (xs', e') => some (setField fs k (.arr xs'), e')
           | none => updateScan fs id fields ks)
      | _ => updateScan fs id fields ks

/-- `update(id, updatedFields)` (content.js lines 385–410): search all
four collections for the id, shallow-merge the fields into the first
match in place, persist, and return the updated entry; return null
(`none`) when the store is uninitialised, the id is falsy, or no entry
matches.  Result: the `_data` after the call and the returned entry. -/
def ContentStore.update (d : Option Json) (id : String)
    (fields : List (String × Json)) : Option Json × Option Json :=
  match d with
  | none => (none, none)
  | some data =>
      if id = "" then (some data, none)
      else
        match data with
        | .obj fs =>
            (match updateScan fs id fields collKeys with
             | some (fs', e') => (some (.obj fs'), some e')
             | none => (some data, none))
        | _ => (some data, none)

/-- `add(entry)` (content.js lines 346–375): require a truthy `type`
naming one of the four collections, ensure the store, auto-assign a
falsy/missing `id` and `date`, append the entry to its collection,
persist, and return the stored entry.  `genId`/`genDate` stand for
`_generateId()`/`_todayISO()`.  Result: the `_data` after the call and
the returned entry (null on rejection). -/
def ContentStore.add (d : Option Json) (entry : Json)
    (genId genDate : String) : Option Json × Option Json :=
  if !jsTruthy entry || !jsTruthyOpt (entry.get "type") then (d, none)
  else
    let key? : Option String :=
      match entry.get "type" with
      | some (.str t) => TYPE_MAP t
      | _ => none
    match key? with
    | none => (d, none)
    | some key =>
        let data :=
          match d with
          | none => ensureStructure (.obj [])
          | some data => data
        let e1 :=
          if jsTruthyOpt (entry.get "id") then entry
          else entry.set "id" (.str genId)
        let e2 :=
          if jsTruthyOpt (e1.get "date") then e1
          else e1.set "date" (.str genDate)
        let pushed : Json :=
          match data with
          | .obj fs =>
              (match getField fs key with
               | some (.arr xs) => .obj (setField fs key (.arr (xs ++ [e2])))
               | _ => data)
          | _ => data
        (some pushed, some e2)

/-! EmailService (the EmailJS module, src/unnamed/part_002).  The send
history lives in localStorage under one key as a JSON array;
`readArray`/`writeArray` invert each other for the well-formed records
this module writes, so the model tracks the history as a list of
records directly.  `clearHistory` removes the key and `readArray`
returns `[]` for a missing key. -/

/-- One message history record as written by `saveToHistory`. -/
structure HistRec where
  date : String
  dateKey : String
  subject : String
  preview : String
deriving Repr, DecidableEq

/-- JavaScript `String.prototype.trim`: strip leading and trailing
whitespace. -/
def jsTrim (s : String) : String :=
  String.mk (((s.data.dropWhile Char.isWhitespace).reverse.dropWhile
    Char.isWhitespace).reverse)

/-- The preview computed by `saveToHistory` (lines 101–111):
`message.length > 50 ? message.substring(0, 50) + '...' : message`.
JS indexes UTF-16 code units; the model counts characters. -/
def previewOf (message : String) : String :=
  if message.length > 50 then String.mk (message.data.take 50) ++ "..."
  else message

/-- `saveToHistory(subject, message)`: unshift a new record onto the
stored history. -/
def saveToHistory (history : List HistRec) (dateDisp dateKey : String)
    (subject message : String) : List HistRec :=
  { date := dateDisp, dateKey := dateKey, subject := subject,
    preview := previewOf message } :: history

/-- `countSentToday()` (lines 86–96): the number of history records
whose `dateKey` equals today's key. -/
def countSentToday (today : String) : List HistRec → Nat
  | [] => 0
  | r :: rest =>
      (if r.dateKey = today then 1 else 0) + countSentToday today rest

/-- `MAX_MESSAGES_PER_DAY`. -/
def MAX_MESSAGES_PER_DAY : Int := 10

/-- `getRemainingToday()` (lines 336–340): the daily allowance minus
today's count, floored at zero. -/
def getRemainingToday (today : String) (history : List HistRec) : Int :=
  let remaining : Int := MAX_MESSAGES_PER_DAY - countSentToday today history
  if remaining > 0 then remaining else 0

/-- `clearHistory()` (lines 328–330): remove the history key; a
subsequent `readArray` of the missing key yields `[]`. -/
def clearHistory (_history : List HistRec) : List HistRec := []

/-- The view `getHistory()` (lines 314–323) maps each record to. -/
structure HistView where
  date : String
  subject : String
  preview : String
deriving Repr, DecidableEq

/-- `getHistory()`: all records, in stored (newest-first) order, with
`dateKey` projected away. -/
def getHistory (history : List HistRec) : List HistView :=
  history.map fun r =>
    { date := r.date, subject := r.subject, preview := r.preview }

/-- EmailJS credentials as read from localStorage (`getItem` yields
null or a string). -/
structure EmailConfig where
  serviceID : Option String
  templateID : Option String
  publicKey : Option String

/-- `isConfigured()` (lines 177–182): all three credentials present and
truthy. -/
def isConfigured (cfg : EmailConfig) : Bool :=
  optTruthy cfg.serviceID && optTruthy cfg.templateID &&
    optTruthy cfg.publicKey

/-- A relay failure as EmailJS delivers it: an object that may carry a
`text` and/or a `message` field. -/
structure RelayErr where
  text : Option String
  message : Option String

/-- The detail the catch block extracts from a relay failure:
`error.text` when truthy, else `error.message` when truthy, else
nothing (lines 294–300). -/
def relayDetail (e : RelayErr) : Option String :=
  match e.text with
  | some t =>
      if t = "" then
        (match e.message with
         | some m => if m = "" then none else some m
         | none => none)
      else some t
  | none =>
      match e.message with
      | some m => if m = "" then none else some m
      | none => none

/-- The failure modes of `send`, in the spec's taxonomy.  The source
throws `Error` objects with bilingual messages and its catch block
re-raises its own errors by substring match while wrapping relay
failures with the extracted detail; the model distinguishes the same
cases structurally (a relay error whose message textually collides with
the module's own marker strings is not modelled). -/
inductive SendError where
  | validationSubject : SendError
  | validationMessage : SendError
  | notConfigured : SendError
  | quotaExceeded : SendError
  | sdkLoadFailed : SendError
  | sdkMissing : SendError
  | sendFailed (detail : Option String) : SendError
deriving Repr, DecidableEq

/-- The environment one `send` call runs against: the current date
strings, the SDK load outcome (`init()`), whether the `emailjs` global
is then available, and the relay call's outcome. -/
structure SendEnv where
  nowDisplay : String
  todayKey : String
  sdkLoads : Bool
  sdkAvailable : Bool
  relay : Except RelayErr String

/-- `send(subject, message, imageUrl)` (lines 222–307): validation,
configuration check, quota check, SDK load, relay call; on success
unshift a history record built from the trimmed subject/message and
resolve with the relay response; on failure leave the history alone.
Result: the settled promise and the history after the call.  (The
`imageUrl` argument only feeds the relay's template parameters and does
not influence any modelled observable.) -/
def send (cfg : EmailConfig) (history : List HistRec) (env : SendEnv)
    (subject message : String) :
    Except SendError String × List HistRec :=
  if subject = "" ∨ jsTrim subject = "" then
    (.error .validationSubject, history)
  else if message = "" ∨ jsTrim message = "" then
    (.error .validationMessage, history)
  else if !isConfigured cfg then (.error .notConfigured, history)
  else if getRemainingToday env.todayKey history ≤ 0 then
    (.error .quotaExceeded, history)
  else if !env.sdkLoads then (.error .sdkLoadFailed, history)
  else if !env.sdkAvailable then (.error .sdkMissing, history)
  else
    match env.relay with
    | .ok response =>
        (.ok response,
         saveToHistory history env.nowDisplay env.todayKey
           (jsTrim subject) (jsTrim message))
    | .error e => (.error (.sendFailed (relayDetail e)), history)

/-! Association-list lemmas for object fields. -/

theorem getField_setField_self (fs : List (String × Json)) (key : String)
    (v : Json) : getField (setField fs key v) key = some v := by
  induction fs with
  | nil => simp [setField, getField]
  | cons kv rest ih =>
      obtain ⟨k, w⟩ := kv
      by_cases h : k = key
      · simp [setField, getField, h]
      · simp [setField, getField, h, ih]

theorem getField_setField_ne (fs : List (String × Json)) (key key' : String)
    (v : Json) (h : key ≠ key') :
    getField (setField fs key v) key' = getField fs key' := by
  induction fs with
  | nil => simp [setField, getField, h]
  | cons kv rest ih =>
      obtain ⟨k, w⟩ := kv
      by_cases hk : k = key
      · subst hk
        simp [setField, getField, h]
      · by_cases hk' : k = key'
        · subst hk'
          simp [setField, getField, hk]
        · simp [setField, getField, hk, hk', ih]

theorem isArrOpt_getField_ensureArr_self (fs : List (String × Json))
    (key : String) : isArrOpt (getField (ensureArr fs key) key) = true := by
  unfold ensureArr
  cases h : getField fs key with
  | none => simp [getField_setField_self, isArrOpt]
  | some v => cases v <;> simp [h, getField_setField_self, isArrOpt]

theorem getField_ensureArr_ne (fs : List (String × Json)) (key key' : String)
    (h : key ≠ key') :
    getField (ensureArr fs key) key' = getField fs key' := by
  unfold ensureArr
  cases hf : getField fs key with
  | none => simp [getField_setField_ne fs key key' _ h]
  | some v => cases v <;> simp [hf, getField_setField_ne fs key key' _ h]

theorem isValidStructure_ensureStructure (j : Json) :
    isValidStructure (ensureStructure j) = true := by
  have core : ∀ fs : List (String × Json),
      isValidStructure (.obj (ensureArr (ensureArr (ensureArr (ensureArr fs
        "videos") "screenshots") "posts") "streams")) = true := by
    intro fs
    have h4 := isArrOpt_getField_ensureArr_self
      (ensureArr (ensureArr (ensureArr fs "videos") "screenshots") "posts")
      "streams"
    have h3 : isArrOpt (getField (ensureArr (ensureArr (ensureArr (ensureArr
        fs "videos") "screenshots") "posts") "streams") "posts") = true := by
      rw [getField_ensureArr_ne _ "streams" "posts" (by decide)]
      exact isArrOpt_getField_ensureArr_self _ "posts"
    have h2 : isArrOpt (getField (ensureArr (ensureArr (ensureArr (ensureArr
        fs "videos") "screenshots") "posts") "streams") "screenshots")
        = true := by
      rw [getField_ensureArr_ne _ "streams" "screenshots" (by decide),
        getField_ensureArr_ne _ "posts" "screenshots" (by decide)]
      exact isArrOpt_getField_ensureArr_self _ "screenshots"
    have h1 : isArrOpt (getField (ensureArr (ensureArr (ensureArr (ensureArr
        fs "videos") "screenshots") "posts") "streams") "videos") = true := by
      rw [getField_ensureArr_ne _ "streams" "videos" (by decide),
        getField_ensureArr_ne _ "posts" "videos" (by decide),
        getField_ensureArr_ne _ "screenshots" "videos" (by decide)]
      exact isArrOpt_getField_ensureArr_self _ "videos"
    simp [isValidStructure, h1, h2, h3, h4]
  cases j <;> exact core _

/-- C1: for every combination of environment outcomes (local store
present or absent, remote config fetch succeeding or failing, remote
mirror fetch succeeding or failing, seed-file fetch succeeding or
failing), `init()` resolves — the promise executor never calls reject —
and the resulting snapshot is structurally valid: all four collections
are arrays, possibly empty. -/
theorem init_always_resolves_structurally_valid (env : InitEnv) :
    ∃ s, ContentStore.init env = .ok s ∧ isValidStructure s = true := by
  unfold ContentStore.init
  cases loadLocal env.localStore with
  | some j => exact ⟨_, rfl, isValidStructure_ensureStructure j⟩
  | none =>
      cases initFetch env with
      | ok j => exact ⟨_, rfl, isValidStructure_ensureStructure j⟩
      | error e => exact ⟨_, rfl, isValidStructure_ensureStructure _⟩

/-- C3: `importJSON` is atomic with respect to parse failure: for every
current snapshot and every file text that is not valid JSON the import
fails and the snapshot (hence any subsequent `getAll`) is exactly as
before, while on valid JSON it replaces the entire snapshot with the
normalized parse result, independent of the previous snapshot (no
merging). -/
theorem importJSON_parse_atomicity (d : Json) (s : String) :
    (Json.parse s = none →
      importJSON d (.text s) = (.error "Invalid JSON file.", d) ∧
      ∀ t, getAll (some (importJSON d (.text s)).2) t = getAll (some d) t) ∧
    (∀ j, Json.parse s = some j →
      importJSON d (.text s) = (.ok (ensureStructure j), ensureStructure j)) := by
  constructor
  · intro h
    refine ⟨by simp [importJSON, h], fun t => by simp [importJSON, h]⟩
  · intro j h
    simp [importJSON, h]

/-- Witness for C3 at the spec's own failing input: importing the text
`\x7bnot valid json` fails and leaves the snapshot untouched. -/
theorem importJSON_parse_atomicity_witness :
    importJSON (.obj [("videos", .arr [.str "v"])])
        (.text "\x7bnot valid json") =
      (.error "Invalid JSON file.", .obj [("videos", .arr [.str "v"])]) :=
  ((importJSON_parse_atomicity (.obj [("videos", .arr [.str "v"])])
    "\x7bnot valid json").1 (by rfl)).1

/-- C10: clearing the history resets the daily quota to the full 10
messages, because the quota is computed solely by counting history
records whose dateKey equals today — and the cleared history has none. -/
theorem clearHistory_resets_quota (history : List HistRec) (today : String) :
    getRemainingToday today (clearHistory history) = 10 ∧
    countSentToday today (clearHistory history) = 0 :=
  ⟨rfl, rfl⟩

/-- A successful `send` can only come from a successful relay call, and
the new history is the old one with the fresh record unshifted. -/
theorem send_ok_shape (cfg : EmailConfig) (history : List HistRec)
    (env : SendEnv) (subject message r : String) (h' : List HistRec)
    (h : send cfg history env subject message = (.ok r, h')) :
    env.relay = .ok r ∧
    h' = saveToHistory history env.nowDisplay env.todayKey
        (jsTrim subject) (jsTrim message) := by
  unfold send at h
  split_ifs at h
  all_goals try exact absurd h (by simp)
  cases hrel : env.relay with
  | ok response =>
      rw [hrel] at h
      simp only [Prod.mk.injEq, Except.ok.injEq] at h
      obtain ⟨h1, h2⟩ := h
      subst h1
      exact ⟨rfl, h2.symm⟩
  | error e =>
      rw [hrel] at h
      simp at h

/-- A quota-exhausted `send` attempt (with otherwise valid input and
configuration) fails with the quota error and leaves the history
alone. -/
theorem send_quota_blocked (cfg : EmailConfig) (history : List HistRec)
    (env : SendEnv) (subject message : String)
    (hs : jsTrim subject ≠ "") (hm : jsTrim message ≠ "")
    (hc : isConfigured cfg = true)
    (hq : getRemainingToday env.todayKey history ≤ 0) :
    send cfg history env subject message = (.error .quotaExceeded, history) := by
  have hs0 : subject ≠ "" := fun hh => hs (by rw [hh]; rfl)
  have hm0 : message ≠ "" := fun hh => hm (by rw [hh]; rfl)
  unfold send
  rw [if_neg (by tauto), if_neg (by tauto), if_neg (by simp [hc]), if_pos hq]

/-- C2: with `N` counting the history records dated today,
`remainingToday()` equals `max 0 (10 − N)`; when the remainder is zero,
a further well-formed send attempt the same day fails with the quota
error and appends nothing to the history; and every successful send
dated today raises the count to `N + 1` (so "N successful sends within
one day" and "N records dated today" coincide). -/
theorem remainingToday_quota (today : String) (history : List HistRec)
    (N : Nat) (hN : countSentToday today history = N) :
    getRemainingToday today history = max 0 (10 - (N : Int)) ∧
    (∀ cfg env subject message, env.todayKey = today →
      jsTrim subject ≠ "" → jsTrim message ≠ "" → isConfigured cfg = true →
      getRemainingToday today history = 0 →
      send cfg history env subject message = (.error .quotaExceeded, history)) ∧
    (∀ cfg env subject message r h', env.todayKey = today →
      send cfg history env subject message = (.ok r, h') →
      countSentToday today h' = N + 1) := by
  refine ⟨?_, ?_, ?_⟩
  · unfold getRemainingToday MAX_MESSAGES_PER_DAY
    rw [hN]
    dsimp only
    rw [max_def]
    split <;> split <;> omega
  · intro cfg env subject message htoday hs hm hc hq
    exact send_quota_blocked cfg history env subject message hs hm hc
      (by simp [htoday, hq])
  · intro cfg env subject message r h' htoday hsend
    obtain ⟨-, hh⟩ := send_ok_shape cfg history env subject message r h' hsend
    subst hh
    simp [saveToHistory, countSentToday, htoday, hN]
    omega

/-- Witness for C2: with ten records dated today, the remainder is zero
and an eleventh well-formed send attempt fails with the quota error,
appending nothing. -/
theorem remainingToday_quota_witness :
    send { serviceID := some "s", templateID := some "t",
           publicKey := some "p" }
        (List.replicate 10
          { date := "01.02.2026, 10:00", dateKey := "2026-02-01",
            subject := "hi", preview := "hi" })
        { nowDisplay := "01.02.2026, 11:00", todayKey := "2026-02-01",
          sdkLoads := true, sdkAvailable := true, relay := .ok "OK" }
        "hi" "yo" =
      (.error .quotaExceeded,
        List.replicate 10
          { date := "01.02.2026, 10:00", dateKey := "2026-02-01",
            subject := "hi", preview := "hi" }) :=
  (remainingToday_quota "2026-02-01"
      (List.replicate 10
        { date := "01.02.2026, 10:00", dateKey := "2026-02-01",
          subject := "hi", preview := "hi" }) 10 (by rfl)).2.1
    _ _ "hi" "yo" rfl (by decide) (by decide) rfl (by rfl)

/-- C7: after a successful send whose (trimmed) body is longer than 50
characters, the newest history record's preview is exactly the first 50
characters of the body followed by the ellipsis marker, and
`getHistory()[0]` is the view of the just-sent message (records are
kept newest-first by unshifting). -/
theorem send_preview_truncation_ordering (cfg : EmailConfig)
    (history : List HistRec) (env : SendEnv) (subject message r : String)
    (h' : List HistRec)
    (hsend : send cfg history env subject message = (.ok r, h'))
    (hlong : 50 < (jsTrim message).length) :
    h' = { date := env.nowDisplay, dateKey := env.todayKey,
           subject := jsTrim subject,
           preview := String.mk ((jsTrim message).data.take 50) ++ "..." }
        :: history ∧
    (getHistory h').head? =
      some { date := env.nowDisplay, subject := jsTrim subject,
             preview := String.mk ((jsTrim message).data.take 50) ++ "..." } := by
  obtain ⟨-, hh⟩ := send_ok_shape cfg history env subject message r h' hsend
  subst hh
  refine ⟨by simp [saveToHistory, previewOf, hlong], ?_⟩
  simp [getHistory, saveToHistory, previewOf, hlong]

/-- Witness for C7: a concrete successful send of a 60-character body. -/
theorem send_preview_truncation_ordering_witness :
    ({ date := "01.02.2026, 11:00", dateKey := "2026-02-01",
       subject := "hi",
       preview := String.mk
         (("aaaaaaaaaabbbbbbbbbbccccccccccddddddddddeeeeeeeeeeffffffffff" :
           String).data.take 50) ++ "..." } :: ([] : List HistRec)) =
      { date := "01.02.2026, 11:00", dateKey := "2026-02-01",
        subject := "hi",
        preview := String.mk
          (("aaaaaaaaaabbbbbbbbbbccccccccccddddddddddeeeeeeeeeeffffffffff" :
            String).data.take 50) ++ "..." } :: ([] : List HistRec) ∧
    (getHistory
        ({ date := "01.02.2026, 11:00", dateKey := "2026-02-01",
           subject := "hi",
           preview := String.mk
             (("aaaaaaaaaabbbbbbbbbbccccccccccddddddddddeeeeeeeeeeffffffffff" :
               String).data.take 50) ++ "..." } :: ([] : List HistRec))).head? =
      some { date := "01.02.2026, 11:00", subject := "hi",
             preview := String.mk
               (("aaaaaaaaaabbbbbbbbbbccccccccccddddddddddeeeeeeeeeeffffffffff" :
                 String).data.take 50) ++ "..." } :=
  send_preview_truncation_ordering
    { serviceID := some "s", templateID := some "t", publicKey := some "p" }
    [] { nowDisplay := "01.02.2026, 11:00", todayKey := "2026-02-01",
         sdkLoads := true, sdkAvailable := true, relay := .ok "OK" }
    "hi" "aaaaaaaaaabbbbbbbbbbccccccccccddddddddddeeeeeeeeeeffffffffff" "OK"
    _ (by rfl) (by decide)

/-- C8: every history record produced by a successful send has a
preview consisting of at most 50 characters of the message body (the
body being the trimmed message), possibly followed by the ellipsis
marker. -/
theorem send_preview_at_most_50 (cfg : EmailConfig)
    (history : List HistRec) (env : SendEnv) (subject message r : String)
    (h' : List HistRec)
    (hsend : send cfg history env subject message = (.ok r, h')) :
    ∃ rec rest p, h' = rec :: rest ∧
      p <+: (jsTrim message).data ∧ p.length ≤ 50 ∧
      (rec.preview.data = p ∨ rec.preview.data = p ++ ['.', '.', '.']) := by
  obtain ⟨-, hh⟩ := send_ok_shape cfg history env subject message r h' hsend
  subst hh
  by_cases hl : (jsTrim message).length > 50
  · refine ⟨_, history, (jsTrim message).data.take 50, rfl,
      List.take_prefix _ _, ?_, .inr ?_⟩
    · simp
    · simp [saveToHistory, previewOf, hl, String.data_append]
  · refine ⟨_, history, (jsTrim message).data, rfl,
      List.prefix_refl _, ?_, .inl ?_⟩
    · have : (jsTrim message).length = (jsTrim message).data.length := rfl
      omega
    · simp [saveToHistory, previewOf, hl]

/-- Witness for C8 at a concrete successful send. -/
theorem send_preview_at_most_50_witness :
    ∃ rec rest p,
      ([{ date := "01.02.2026, 11:00", dateKey := "2026-02-01",
          subject := "hi", preview := "yo" }] : List HistRec) = rec :: rest ∧
      p <+: (jsTrim "yo").data ∧ p.length ≤ 50 ∧
      (rec.preview.data = p ∨ rec.preview.data = p ++ ['.', '.', '.']) :=
  send_preview_at_most_50
    { serviceID := some "s", templateID := some "t", publicKey := some "p" }
    [] { nowDisplay := "01.02.2026, 11:00", todayKey := "2026-02-01",
         sdkLoads := true, sdkAvailable := true, relay := .ok "OK" }
    "hi" "yo" "OK" _ (by rfl)

/-- C9: error precedence of `send`.  A whitespace-only subject fails
with the subject validation error regardless of configuration, quota or
environment (so before any configuration check, quota check, or network
activity); a whitespace-only message likewise with the message
validation error; with well-formed input but missing credentials the
failure is the not-configured error, again regardless of quota or
environment; and a relay failure rejects with the send error carrying
the relay's detail text when available, leaving the history
unchanged in every failure case. -/
theorem send_error_precedence :
    (∀ (cfg : EmailConfig) (history : List HistRec) (env : SendEnv)
        (subject message : String), jsTrim subject = "" →
      send cfg history env subject message =
        (.error .validationSubject, history)) ∧
    (∀ (cfg : EmailConfig) (history : List HistRec) (env : SendEnv)
        (subject message : String), jsTrim subject ≠ "" →
      jsTrim message = "" →
      send cfg history env subject message =
        (.error .validationMessage, history)) ∧
    (∀ (cfg : EmailConfig) (history : List HistRec) (env : SendEnv)
        (subject message : String), jsTrim subject ≠ "" →
      jsTrim message ≠ "" → isConfigured cfg = false →
      send cfg history env subject message =
        (.error .notConfigured, history)) ∧
    (∀ (cfg : EmailConfig) (history : List HistRec) (env : SendEnv)
        (subject message : String) (e : RelayErr), jsTrim subject ≠ "" →
      jsTrim message ≠ "" → isConfigured cfg = true →
      0 < getRemainingToday env.todayKey history →
      env.sdkLoads = true → env.sdkAvailable = true → env.relay = .error e →
      send cfg history env subject message =
        (.error (.sendFailed (relayDetail e)), history) ∧
      ∀ t, e.text = some t → t ≠ "" → relayDetail e = some t) := by
  refine ⟨?_, ?_, ?_, ?_⟩
  · intro cfg history env subject message hs
    unfold send
    rw [if_pos (Or.inr hs)]
  · intro cfg history env subject message hs hm
    have hs0 : subject ≠ "" := fun hh => hs (by rw [hh]; rfl)
    unfold send
    rw [if_neg (by tauto), if_pos (Or.inr hm)]
  · intro cfg history env subject message hs hm hc
    have hs0 : subject ≠ "" := fun hh => hs (by rw [hh]; rfl)
    have hm0 : message ≠ "" := fun hh => hm (by rw [hh]; rfl)
    unfold send
    rw [if_neg (by tauto), if_neg (by tauto), if_pos (by simp [hc])]
  · intro cfg history env subject message e hs hm hc hq hl ha hrel
    have hs0 : subject ≠ "" := fun hh => hs (by rw [hh]; rfl)
    have hm0 : message ≠ "" := fun hh => hm (by rw [hh]; rfl)
    refine ⟨?_, ?_⟩
    · unfold send
      rw [if_neg (by tauto), if_neg (by tauto), if_neg (by simp [hc]),
        if_neg (by omega), if_neg (by simp [hl]), if_neg (by simp [ha]),
        hrel]
    · intro t ht htne
      simp [relayDetail, ht, htne]

/-- Witness for C9: a concrete relay failure carrying a detail text is
wrapped into a send error with that detail, and the history is left
unchanged. -/
theorem send_error_precedence_witness :
    send { serviceID := some "s", templateID := some "t",
           publicKey := some "p" }
        [] { nowDisplay := "01.02.2026, 11:00", todayKey := "2026-02-01",
             sdkLoads := true, sdkAvailable := true,
             relay := .error { text := some "template not found",
                               message := none } }
        "hi" "yo" =
      (.error (.sendFailed (some "template not found")), []) :=
  (send_error_precedence.2.2.2
    { serviceID := some "s", templateID := some "t", publicKey := some "p" }
    [] { nowDisplay := "01.02.2026, 11:00", todayKey := "2026-02-01",
         sdkLoads := true, sdkAvailable := true,
         relay := .error { text := some "template not found",
                           message := none } }
    "hi" "yo" { text := some "template not found", message := none }
    (by decide) (by decide) rfl (by decide) rfl rfl rfl).1

/-! Lemmas about `update`'s merge and scan. -/

theorem getField_foldl_setField_not_mem (fields : List (String × Json))
    (fs : List (String × Json)) (key : String)
    (h : ∀ kv ∈ fields, kv.1 ≠ key) :
    getField (fields.foldl (fun acc kv => setField acc kv.1 kv.2) fs) key
      = getField fs key := by
  induction fields generalizing fs with
  | nil => rfl
  | cons kv rest ih =>
      simp only [List.foldl_cons]
      rw [ih _ (fun x hx => h x (List.mem_cons_of_mem _ hx))]
      exact getField_setField_ne _ _ _ _ (h kv (List.mem_cons_self _ _))

theorem getField_foldl_setField_mem (fields : List (String × Json))
    (fs : List (String × Json)) (key : String) (v : Json)
    (hnd : (fields.map Prod.fst).Nodup) (hmem : (key, v) ∈ fields) :
    getField (fields.foldl (fun acc kv => setField acc kv.1 kv.2) fs) key
      = some v := by
  induction fields generalizing fs with
  | nil => cases hmem
  | cons kv rest ih =>
      simp only [List.map_cons, List.nodup_cons] at hnd
      simp only [List.foldl_cons]
      rcases List.mem_cons.mp hmem with heq | hmem'
      · have hkv : kv.1 = key := by rw [← heq]
        have hkey : ∀ kv' ∈ rest, kv'.1 ≠ key := by
          intro kv' hkv' heqk
          refine hnd.1 ?_
          rw [hkv, ← heqk]
          exact List.mem_map_of_mem Prod.fst hkv'
        rw [getField_foldl_setField_not_mem rest _ key hkey]
        have hv : kv.2 = v := by rw [← heq]
        rw [← hkv, ← hv]
        exact getField_setField_self fs kv.1 kv.2
      · exact ih _ hnd.2 hmem'

theorem mergeFields_get_not_mem (efs : List (String × Json))
    (fields : List (String × Json)) (key : String)
    (h : ∀ kv ∈ fields, kv.1 ≠ key) :
    (mergeFields (.obj efs) fields).get key = Json.get (.obj efs) key := by
  simp only [mergeFields, Json.get]
  exact getField_foldl_setField_not_mem fields efs key h

theorem mergeFields_get_mem (efs : List (String × Json))
    (fields : List (String × Json)) (key : String) (v : Json)
    (hnd : (fields.map Prod.fst).Nodup) (hmem : (key, v) ∈ fields) :
    (mergeFields (.obj efs) fields).get key = some v := by
  simp only [mergeFields, Json.get]
  exact getField_foldl_setField_mem fields efs key v hnd hmem

theorem entryIdIs_obj (e : Json) (id : String)
    (h : entryIdIs e id = true) : ∃ efs, e = .obj efs := by
  cases e <;> simp_all [entryIdIs, Json.get]

theorem updateList_found (id : String) (fields : List (String × Json))
    (pre post : List Json) (e : Json)
    (hpre : ∀ x ∈ pre, entryIdIs x id = false)
    (he : entryIdIs e id = true) :
    updateList id fields (pre ++ e :: post) =
      some (pre ++ mergeFields e fields :: post, mergeFields e fields) := by
  induction pre with
  | nil => simp [updateList, he]
  | cons x rest ih =>
      have hx : entryIdIs x id = false := hpre x (List.mem_cons_self _ _)
      have ih' := ih (fun y hy => hpre y (List.mem_cons_of_mem _ hy))
      simp [updateList, hx, ih']

theorem updateList_none (id : String) (fields : List (String × Json))
    (xs : List Json) (h : ∀ x ∈ xs, entryIdIs x id = false) :
    updateList id fields xs = none := by
  induction xs with
  | nil => rfl
  | cons x rest ih =>
      simp [updateList, h x (List.mem_cons_self _ _),
        ih (fun y hy => h y (List.mem_cons_of_mem _ hy))]

/-- No entry of the collection under key `k` matches the id (vacuously
true when that collection is missing or not an array, which the scan
skips). -/
def collNoMatch (fs : List (String × Json)) (id k : String) : Prop :=
  ∀ xs, getField fs k = some (.arr xs) → ∀ x ∈ xs, entryIdIs x id = false

theorem updateScan_skip (fs : List (String × Json)) (id : String)
    (fields : List (String × Json)) (k : String) (ks : List String)
    (h : collNoMatch fs id k) :
    updateScan fs id fields (k :: ks) = updateScan fs id fields ks := by
  conv_lhs => rw [updateScan]
  cases hg : getField fs k with
  | none => rfl
  | some v =>
      cases v <;> try rfl
      case arr xs => simp only [updateList_none id fields xs (h xs hg)]

theorem updateScan_append_skip (fs : List (String × Json)) (id : String)
    (fields : List (String × Json)) (ks1 ks2 : List String)
    (h : ∀ k ∈ ks1, collNoMatch fs id k) :
    updateScan fs id fields (ks1 ++ ks2) = updateScan fs id fields ks2 := by
  induction ks1 with
  | nil => rfl
  | cons k rest ih =>
      rw [List.cons_append, updateScan_skip fs id fields k _
        (h k (List.mem_cons_self _ _))]
      exact ih (fun k' hk' => h k' (List.mem_cons_of_mem _ hk'))

theorem updateScan_none (fs : List (String × Json)) (id : String)
    (fields : List (String × Json)) (ks : List String)
    (h : ∀ k ∈ ks, collNoMatch fs id k) :
    updateScan fs id fields ks = none := by
  have := updateScan_append_skip fs id fields ks [] h
  simpa using this

theorem updateScan_found (fs : List (String × Json)) (id : String)
    (fields : List (String × Json)) (k : String) (ks : List String)
    (pre post : List Json) (e : Json)
    (hg : getField fs k = some (.arr (pre ++ e :: post)))
    (hpre : ∀ x ∈ pre, entryIdIs x id = false)
    (he : entryIdIs e id = true) :
    updateScan fs id fields (k :: ks) =
      some (setField fs k (.arr (pre ++ mergeFields e fields :: post)),
        mergeFields e fields) := by
  conv_lhs => rw [updateScan]
  simp only [hg, updateList_found id fields pre post e hpre he]

/-- C5: `update` is a shallow partial merge with frame preservation.
When the id matches one entry (the store's ids being unique, expressed
here as: earlier collections and earlier entries of its collection do
not match), exactly that entry is replaced in place by the merge, the
merged entry is returned, keys provided in the fields are replaced
whole, every other key of the entry keeps its prior value, and every
other collection is untouched (the containing collection keeps all its
other entries positionally).  When no entry matches, `update` returns
the null not-found signal without throwing and every collection is
unchanged. -/
theorem update_partial_merge_frame (fs : List (String × Json)) (id : String)
    (fields : List (String × Json)) :
    (∀ (k : String) (ks1 ks2 : List String) (pre post : List Json)
        (e : Json), id ≠ "" →
      collKeys = ks1 ++ k :: ks2 →
      (∀ k' ∈ ks1, collNoMatch fs id k') →
      getField fs k = some (.arr (pre ++ e :: post)) →
      (∀ x ∈ pre, entryIdIs x id = false) →
      entryIdIs e id = true →
      ContentStore.update (some (.obj fs)) id fields =
        (some (.obj (setField fs k
          (.arr (pre ++ mergeFields e fields :: post)))),
         some (mergeFields e fields)) ∧
      (∀ key, (∀ kv ∈ fields, kv.1 ≠ key) →
        (mergeFields e fields).get key = e.get key) ∧
      (∀ key v, (fields.map Prod.fst).Nodup → (key, v) ∈ fields →
        (mergeFields e fields).get key = some v) ∧
      (∀ k', k ≠ k' →
        getField (setField fs k
            (.arr (pre ++ mergeFields e fields :: post))) k'
          = getField fs k')) ∧
    (id ≠ "" → (∀ k' ∈ collKeys, collNoMatch fs id k') →
      ContentStore.update (some (.obj fs)) id fields =
        (some (.obj fs), none)) := by
  constructor
  · intro k ks1 ks2 pre post e hid hkeys hskip hg hpre he
    obtain ⟨efs, rfl⟩ := entryIdIs_obj e id he
    refine ⟨?_, ?_, ?_, ?_⟩
    · unfold ContentStore.update
      dsimp only
      rw [if_neg hid, hkeys, updateScan_append_skip fs id fields ks1 _ hskip,
        updateScan_found fs id fields k ks2 pre post _ hg hpre he]
    · intro key hkey
      exact mergeFields_get_not_mem efs fields key hkey
    · intro key v hnd hmem
      exact mergeFields_get_mem efs fields key v hnd hmem
    · intro k' hk'
      exact getField_setField_ne fs k k' _ hk'
  · intro hid hall
    unfold ContentStore.update
    dsimp only
    rw [if_neg hid, updateScan_none fs id fields collKeys hall]

/-- Witness for C5: updating the title of the single video entry
replaces only that field, in place, and returns the merged entry. -/
theorem update_partial_merge_frame_witness :
    ContentStore.update
        (some (.obj [("videos", .arr [.obj [("id", .str "a"),
            ("type", .str "video"), ("title", .str "old")]]),
          ("screenshots", .arr []), ("posts", .arr []),
          ("streams", .arr [])]))
        "a" [("title", .str "new")] =
      (some (.obj [("videos", .arr [.obj [("id", .str "a"),
          ("type", .str "video"), ("title", .str "new")]]),
        ("screenshots", .arr []), ("posts", .arr []),
        ("streams", .arr [])]),
       some (.obj [("id", .str "a"), ("type", .str "video"),
        ("title", .str "new")])) :=
  ((update_partial_merge_frame
      [("videos", .arr [.obj [("id", .str "a"), ("type", .str "video"),
          ("title", .str "old")]]),
        ("screenshots", .arr []), ("posts", .arr []), ("streams", .arr [])]
      "a" [("title", .str "new")]).1
    "videos" [] ["screenshots", "posts", "streams"] [] []
    (.obj [("id", .str "a"), ("type", .str "video"), ("title", .str "old")])
    (by decide) rfl (by simp) rfl (by simp) (by rfl)).1

/-- C6 counterexample: the claim says no `update` changes an entry's
`type`, but `update` merges whatever keys the caller passes; updating
the video entry `a` with a `type` of `post` yields an entry whose
`type` field is `post`, not the original `video`. -/
theorem update_can_change_type_counterexample :
    (ContentStore.update
        (some (.obj [("videos", .arr [.obj [("id", .str "a"),
            ("type", .str "video")]]),
          ("screenshots", .arr []), ("posts", .arr []),
          ("streams", .arr [])]))
        "a" [("type", .str "post")]).2
      = some (.obj [("id", .str "a"), ("type", .str "post")]) ∧
    some (Json.obj [("id", .str "a"), ("type", .str "post")]) ≠
      some (Json.obj [("id", .str "a"), ("type", .str "video")]) := by
  refine ⟨rfl, ?_⟩
  simp

/-- C6 amended: an updated entry always stays in the collection it was
created in — `update` replaces it in place and never moves entries
between collections — and its `type` field is unchanged by every
`update` whose fields do not contain a `type` key. -/
theorem update_keeps_collection_and_type (fs : List (String × Json))
    (id : String) (fields : List (String × Json)) (k : String)
    (ks1 ks2 : List String) (pre post : List Json) (e : Json)
    (hid : id ≠ "") (hkeys : collKeys = ks1 ++ k :: ks2)
    (hskip : ∀ k' ∈ ks1, collNoMatch fs id k')
    (hg : getField fs k = some (.arr (pre ++ e :: post)))
    (hpre : ∀ x ∈ pre, entryIdIs x id = false)
    (he : entryIdIs e id = true) :
    (ContentStore.update (some (.obj fs)) id fields).1 =
      some (.obj (setField fs k
        (.arr (pre ++ mergeFields e fields :: post)))) ∧
    ((∀ kv ∈ fields, kv.1 ≠ "type") →
      (mergeFields e fields).get "type" = e.get "type") := by
  obtain ⟨efs, rfl⟩ := entryIdIs_obj e id he
  constructor
  · unfold ContentStore.update
    dsimp only
    rw [if_neg hid, hkeys, updateScan_append_skip fs id fields ks1 _ hskip,
      updateScan_found fs id fields k ks2 pre post _ hg hpre he]
  · intro hkey
    exact mergeFields_get_not_mem efs fields "type" hkey

/-- Witness for the amended C6: a title-only update leaves the entry in
the videos collection with its `type` still `video`. -/
theorem update_keeps_collection_and_type_witness :
    (ContentStore.update
        (some (.obj [("videos", .arr [.obj [("id", .str "b"),
            ("type", .str "video"), ("title", .str "old")]]),
          ("screenshots", .arr []), ("posts", .arr []),
          ("streams", .arr [])]))
        "b" [("title", .str "new")]).1 =
      some (.obj [("videos", .arr [.obj [("id", .str "b"),
          ("type", .str "video"), ("title", .str "new")]]),
        ("screenshots", .arr []), ("posts", .arr []),
        ("streams", .arr [])]) ∧
    ((∀ kv ∈ ([("title", Json.str "new")] : List (String × Json)),
        kv.1 ≠ "type") →
      (mergeFields (.obj [("id", .str "b"), ("type", .str "video"),
          ("title", .str "old")]) [("title", .str "new")]).get "type"
        = Json.get (.obj [("id", .str "b"), ("type", .str "video"),
            ("title", .str "old")]) "type") :=
  update_keeps_collection_and_type
    [("videos", .arr [.obj [("id", .str "b"), ("type", .str "video"),
        ("title", .str "old")]]),
      ("screenshots", .arr []), ("posts", .arr []), ("streams", .arr [])]
    "b" [("title", .str "new")] "videos" []
    ["screenshots", "posts", "streams"] [] []
    (.obj [("id", .str "b"), ("type", .str "video"), ("title", .str "old")])
    (by decide) rfl (by simp) rfl (by simp) (by rfl)

/-! Round-trip correctness of the printer/parser pair, leading to C4. -/

theorem escChar_spec (c : Char) :
    (escChar c = [c] ∧ c ≠ '"' ∧ c ≠ '\\') ∨
    (∃ e, escChar c = ['\\', e] ∧ unescChar e = some c) := by
  unfold escChar
  split_ifs with h1 h2 h3 h4 h5 h6 h7
  · exact .inr ⟨'"', rfl, by rw [h1]; rfl⟩
  · exact .inr ⟨'\\', rfl, by rw [h2]; rfl⟩
  · exact .inr ⟨'n', rfl, by rw [h3]; rfl⟩
  · exact .inr ⟨'t', rfl, by rw [h4]; rfl⟩
  · exact .inr ⟨'r', rfl, by rw [h5]; rfl⟩
  · exact .inr ⟨'b', rfl, by rw [h6]; rfl⟩
  · exact .inr ⟨'f', rfl, by rw [h7]; rfl⟩
  · exact .inl ⟨rfl, h1, h2⟩

theorem parseStrBody_escStr : ∀ (cs : List Char) (fuel : Nat)
    (rest : List Char), (escStr cs).length < fuel →
    parseStrBody fuel (escStr cs ++ '"' :: rest) = some (cs, rest) := by
  intro cs
  induction cs with
  | nil =>
      intro fuel rest hlen
      cases fuel with
      | zero => exact absurd hlen (Nat.not_lt_zero _)
      | succ f => simp [escStr, parseStrBody]
  | cons c cs ih =>
      intro fuel rest hlen
      rw [escStr] at hlen ⊢
      rcases escChar_spec c with ⟨hraw, hq, hbs⟩ | ⟨e, hesc, hun⟩
      · rw [hraw] at hlen ⊢
        cases fuel with
        | zero => exact absurd hlen (Nat.not_lt_zero _)
        | succ f =>
            show parseStrBody (f + 1) (c :: (escStr cs ++ '"' :: rest))
              = some (c :: cs, rest)
            simp only [parseStrBody]
            rw [if_neg hq, if_neg hbs, ih f rest (by simp at hlen; omega)]
      · rw [hesc] at hlen ⊢
        cases fuel with
        | zero => exact absurd hlen (Nat.not_lt_zero _)
        | succ f =>
            have hbq : ('\\' : Char) ≠ '"' := by decide
            show parseStrBody (f + 1)
                ('\\' :: e :: (escStr cs ++ '"' :: rest))
              = some (c :: cs, rest)
            simp only [parseStrBody]
            rw [if_neg hbq, if_true, hun,
              ih f rest (by simp at hlen; omega)]

/-- Decimal digits are digit characters and evaluate back to the
number; proved by strong induction on the printed number. -/
theorem digitChar_isDigit (n : Nat) : (digitChar n).isDigit = true := by
  unfold digitChar
  have h : n % 10 < 10 := Nat.mod_lt _ (by omega)
  revert h
  generalize n % 10 = k
  revert k
  decide

theorem digitChar_toNat (n : Nat) : (digitChar n).toNat = 48 + n % 10 := by
  unfold digitChar
  have h : n % 10 < 10 := Nat.mod_lt _ (by omega)
  revert h
  generalize n % 10 = k
  revert k
  decide

theorem natCharsAux_acc : ∀ (n fuel : Nat) (acc : List Char), n < fuel →
    natCharsAux fuel n acc = natChars n ++ acc := by
  intro n
  induction n using Nat.strong_induction_on with
  | _ n ih =>
      intro fuel acc hfuel
      cases fuel with
      | zero => exact absurd hfuel (Nat.not_lt_zero _)
      | succ f =>
          rw [natCharsAux]
          by_cases h10 : n < 10
          · rw [if_pos h10]
            unfold natChars
            rw [natCharsAux, if_pos h10]
            rfl
          · rw [if_neg h10]
            have hdiv : n / 10 < n := Nat.div_lt_self (by omega) (by omega)
            rw [ih (n / 10) hdiv f (digitChar n :: acc) (by omega)]
            conv_rhs =>
              rw [natChars, natCharsAux, if_neg h10,
                ih (n / 10) hdiv n [digitChar n] hdiv]
            simp

theorem digitsVal_append (xs ys : List Char) : ∀ a,
    digitsVal (xs ++ ys) a = digitsVal ys (digitsVal xs a) := by
  induction xs with
  | nil => intro a; rfl
  | cons c cs ih =>
      intro a
      rw [List.cons_append]
      show digitsVal (cs ++ ys) (a * 10 + (c.toNat - 48))
        = digitsVal ys (digitsVal cs (a * 10 + (c.toNat - 48)))
      exact ih _

theorem digitsVal_natChars : ∀ n : Nat, digitsVal (natChars n) 0 = n := by
  intro n
  induction n using Nat.strong_induction_on with
  | _ n ih =>
      by_cases h10 : n < 10
      · unfold natChars
        rw [natCharsAux, if_pos h10]
        simp [digitsVal, digitChar_toNat]
        omega
      · have hdiv : n / 10 < n := Nat.div_lt_self (by omega) (by omega)
        have hsplit : natChars n = natChars (n / 10) ++ [digitChar n] := by
          conv_lhs => rw [natChars, natCharsAux]
          rw [if_neg h10, natCharsAux_acc (n / 10) n _ hdiv]
        rw [hsplit, digitsVal_append, ih (n / 10) hdiv]
        simp [digitsVal, digitChar_toNat]
        omega

theorem natChars_digits : ∀ (n : Nat), ∀ c ∈ natChars n,
    c.isDigit = true := by
  intro n
  induction n using Nat.strong_induction_on with
  | _ n ih =>
      intro c hc
      by_cases h10 : n < 10
      · unfold natChars at hc
        rw [natCharsAux, if_pos h10] at hc
        simp at hc
        rw [hc]
        exact digitChar_isDigit n
      · have hdiv : n / 10 < n := Nat.div_lt_self (by omega) (by omega)
        have hsplit : natChars n = natChars (n / 10) ++ [digitChar n] := by
          conv_lhs => rw [natChars, natCharsAux]
          rw [if_neg h10, natCharsAux_acc (n / 10) n _ hdiv]
        rw [hsplit] at hc
        rcases List.mem_append.mp hc with h | h
        · exact ih (n / 10) hdiv c h
        · simp at h
          rw [h]
          exact digitChar_isDigit n

theorem natChars_cons : ∀ n : Nat, ∃ c cs, natChars n = c :: cs ∧
    c.isDigit = true := by
  intro n
  induction n using Nat.strong_induction_on with
  | _ n ih =>
      by_cases h10 : n < 10
      · refine ⟨digitChar n, [], ?_, digitChar_isDigit n⟩
        unfold natChars
        rw [natCharsAux, if_pos h10]
      · have hdiv : n / 10 < n := Nat.div_lt_self (by omega) (by omega)
        have hsplit : natChars n = natChars (n / 10) ++ [digitChar n] := by
          conv_lhs => rw [natChars, natCharsAux]
          rw [if_neg h10, natCharsAux_acc (n / 10) n _ hdiv]
        obtain ⟨c, cs, hcs, hd⟩ := ih (n / 10) hdiv
        exact ⟨c, cs ++ [digitChar n], by rw [hsplit, hcs]; rfl, hd⟩

/-- Whether the input does not begin with a decimal digit (so a greedy
digit scan stops exactly at the boundary). -/
def headNotDigit : List Char → Bool
  | [] => true
  | c :: _ => !c.isDigit

theorem takeDigits_split : ∀ (ds rest : List Char),
    (∀ c ∈ ds, c.isDigit = true) → headNotDigit rest = true →
    takeDigits (ds ++ rest) = (ds, rest) := by
  intro ds
  induction ds with
  | nil =>
      intro rest hds hrest
      cases rest with
      | nil => rfl
      | cons c r =>
          simp only [headNotDigit, Bool.not_eq_true'] at hrest
          simp [takeDigits, hrest]
  | cons d ds ih =>
      intro rest hds hrest
      have hd := hds d (List.mem_cons_self _ _)
      have hih := ih rest (fun c hc => hds c (List.mem_cons_of_mem _ hc)) hrest
      simp [takeDigits, hd, hih]

/-- The encoding of the items after the first in an array: each is
preceded by a comma. -/
def encItemsTail : List Json → List Char
  | [] => []
  | x :: xs => ',' :: (encVal x ++ encItemsTail xs)

/-- The encoding of the members after the first in an object. -/
def encFieldsTail : List (String × Json) → List Char
  | [] => []
  | (k, v) :: fs =>
      ',' :: ('"' :: (escStr k.data ++ ('"' :: (':' ::
        (encVal v ++ encFieldsTail fs)))))

theorem encItems_cons : ∀ (xs : List Json) (x : Json),
    encItems (x :: xs) = encVal x ++ encItemsTail xs := by
  intro xs
  induction xs with
  | nil => intro x; simp [encItems, encItemsTail]
  | cons y ys ih =>
      intro x
      rw [encItems, ih y]
      simp [encItemsTail]

theorem encFields_cons : ∀ (fs : List (String × Json)) (k : String)
    (v : Json), encFields ((k, v) :: fs) =
      '"' :: (escStr k.data ++ ('"' :: (':' ::
        (encVal v ++ encFieldsTail fs)))) := by
  intro fs
  induction fs with
  | nil => intro k v; simp [encFields, encFieldsTail]
  | cons kv gs ih =>
      intro k v
      obtain ⟨k', v'⟩ := kv
      rw [encFields, ih k' v']
      simp [encFieldsTail]

theorem headNotDigit_itemsTail (xs : List Json) (rest : List Char) :
    headNotDigit (encItemsTail xs ++ ']' :: rest) = true := by
  cases xs <;> rfl

theorem headNotDigit_fieldsTail (fs : List (String × Json))
    (rest : List Char) :
    headNotDigit (encFieldsTail fs ++ rbrace :: rest) = true := by
  cases fs with
  | nil => rfl
  | cons kv gs => obtain ⟨k, v⟩ := kv; rfl

/-- Every encoded value is nonempty and starts with a character other
than the array terminator. -/
theorem encVal_head (j : Json) : ∃ c cs, encVal j = c :: cs ∧ c ≠ ']' := by
  cases j with
  | null => exact ⟨'n', _, rfl, by decide⟩
  | bool b => cases b
              · exact ⟨'f', _, rfl, by decide⟩
              · exact ⟨'t', _, rfl, by decide⟩
  | num n =>
      cases n with
      | ofNat m =>
          obtain ⟨c, cs, hcs, hd⟩ := natChars_cons m
          refine ⟨c, cs, ?_, ?_⟩
          · show intChars (.ofNat m) = c :: cs
            rw [intChars, hcs]
          · intro he
            rw [he] at hd
            exact absurd hd (by decide)
      | negSucc m => exact ⟨'-', _, rfl, by decide⟩
  | str s => exact ⟨'"', _, rfl, by decide⟩
  | arr xs => exact ⟨'[', _, rfl, by decide⟩
  | obj fs => exact ⟨lbrace, _, rfl, by decide⟩

theorem parseMember_enc (k : String) (v : Json)
    (hP : ∀ (fuel : Nat) (rest : List Char),
      (encVal v ++ rest).length < fuel → headNotDigit rest = true →
      parseVal fuel (encVal v ++ rest) = some (v, rest)) :
    ∀ (fuel : Nat) (rest : List Char),
      ('"' :: (escStr k.data ++ ('"' :: (':' ::
        (encVal v ++ rest))))).length < fuel →
      headNotDigit rest = true →
      parseMember fuel
          ('"' :: (escStr k.data ++ ('"' :: (':' :: (encVal v ++ rest)))))
        = some ((k, v), rest) := by
  intro fuel rest hlen hnd
  cases fuel with
  | zero => exact absurd hlen (Nat.not_lt_zero _)
  | succ f =>
      have hstr := parseStrBody_escStr k.data
        ((escStr k.data ++ ('"' :: (':' :: (encVal v ++ rest)))).length + 1)
        (':' :: (encVal v ++ rest)) (by simp; omega)
      have hval := hP f rest (by simp at hlen ⊢; omega) hnd
      have hred : parseMember (f + 1)
          ('"' :: (escStr k.data ++ ('"' :: (':' :: (encVal v ++ rest))))) =
          (match parseStrBody
              ((escStr k.data ++
                ('"' :: (':' :: (encVal v ++ rest)))).length + 1)
              (escStr k.data ++ ('"' :: (':' :: (encVal v ++ rest)))) with
           | none => none
           | some (kk, r) =>
              match r with
              | ':' :: r1 =>
                  (match parseVal f r1 with
                   | none => none
                   | some (vv, r2) => some ((String.mk kk, vv), r2))
              | _ => none) := rfl
      rw [hred, hstr]
      show (match parseVal f (encVal v ++ rest) with
            | none => none
            | some (vv, r2) => some ((String.mk k.data, vv), r2))
          = some ((k, v), rest)
      rw [hval]

theorem parseArrTail_enc (xs : List Json)
    (hP : ∀ x ∈ xs, ∀ (fuel : Nat) (rest : List Char),
      (encVal x ++ rest).length < fuel → headNotDigit rest = true →
      parseVal fuel (encVal x ++ rest) = some (x, rest)) :
    ∀ (fuel : Nat) (rest : List Char),
      (encItemsTail xs ++ ']' :: rest).length < fuel →
      parseArrTail fuel (encItemsTail xs ++ ']' :: rest)
        = some (xs, rest) := by
  induction xs with
  | nil =>
      intro fuel rest hlen
      cases fuel with
      | zero => exact absurd hlen (Nat.not_lt_zero _)
      | succ f => exact rfl
  | cons y ys ih =>
      intro fuel rest hlen
      cases fuel with
      | zero => exact absurd hlen (Nat.not_lt_zero _)
      | succ f =>
          have hshape : encItemsTail (y :: ys) ++ ']' :: rest
              = ',' :: (encVal y ++ (encItemsTail ys ++ ']' :: rest)) := by
            show (',' :: (encVal y ++ encItemsTail ys)) ++ ']' :: rest = _
            rw [List.cons_append, List.append_assoc]
          rw [hshape] at hlen ⊢
          have hred : parseArrTail (f + 1)
              (',' :: (encVal y ++ (encItemsTail ys ++ ']' :: rest)))
              = (match parseVal f
                    (encVal y ++ (encItemsTail ys ++ ']' :: rest)) with
                 | none => none
                 | some (x, r) =>
                     match parseArrTail f r with
                     | none => none
                     | some (zs, r') => some (x :: zs, r')) := rfl
          rw [hred,
            hP y (List.mem_cons_self _ _) f (encItemsTail ys ++ ']' :: rest)
              (by simp at hlen ⊢; omega) (headNotDigit_itemsTail ys rest)]
          dsimp only
          rw [ih (fun x hx => hP x (List.mem_cons_of_mem _ hx)) f rest
            (by simp at hlen ⊢; omega)]

theorem parseObjTail_enc (fs : List (String × Json))
    (hP : ∀ kv ∈ fs, ∀ (fuel : Nat) (rest : List Char),
      (encVal kv.2 ++ rest).length < fuel → headNotDigit rest = true →
      parseVal fuel (encVal kv.2 ++ rest) = some (kv.2, rest)) :
    ∀ (fuel : Nat) (rest : List Char),
      (encFieldsTail fs ++ rbrace :: rest).length < fuel →
      parseObjTail fuel (encFieldsTail fs ++ rbrace :: rest)
        = some (fs, rest) := by
  induction fs with
  | nil =>
      intro fuel rest hlen
      cases fuel with
      | zero => exact absurd hlen (Nat.not_lt_zero _)
      | succ f => exact rfl
  | cons kv gs ih =>
      obtain ⟨k, v⟩ := kv
      intro fuel rest hlen
      cases fuel with
      | zero => exact absurd hlen (Nat.not_lt_zero _)
      | succ f =>
          have hshape : encFieldsTail ((k, v) :: gs) ++ rbrace :: rest
              = ',' :: ('"' :: (escStr k.data ++ ('"' :: (':' ::
                  (encVal v ++ (encFieldsTail gs ++ rbrace :: rest)))))) := by
            show (',' :: ('"' :: (escStr k.data ++ ('"' :: (':' ::
                (encVal v ++ encFieldsTail gs)))))) ++ rbrace :: rest = _
            simp [List.append_assoc]
          rw [hshape] at hlen ⊢
          have hred : parseObjTail (f + 1)
              (',' :: ('"' :: (escStr k.data ++ ('"' :: (':' ::
                  (encVal v ++ (encFieldsTail gs ++ rbrace :: rest)))))))
              = (match parseMember f
                    ('"' :: (escStr k.data ++ ('"' :: (':' ::
                      (encVal v ++ (encFieldsTail gs ++ rbrace :: rest)))))) with
                 | none => none
                 | some (kw, r) =>
                     match parseObjTail f r with
                     | none => none
                     | some (kvs, r') => some (kw :: kvs, r')) := rfl
          rw [hred,
            parseMember_enc k v (hP (k, v) (List.mem_cons_self _ _)) f
              (encFieldsTail gs ++ rbrace :: rest)
              (by simp at hlen ⊢; omega) (headNotDigit_fieldsTail gs rest)]
          dsimp only
          rw [ih (fun kw hk => hP kw (List.mem_cons_of_mem _ hk)) f rest
            (by simp at hlen ⊢; omega)]

/-- One unfolding of `parseVal` at positive fuel on a nonempty input. -/
theorem parseVal_cons_eq (f : Nat) (c : Char) (rest : List Char) :
    parseVal (f + 1) (c :: rest) =
      (if c = 'n' then
        match rest with
        | 'u' :: 'l' :: 'l' :: r => some (.null, r)
        | _ => none
      else if c = 't' then
        match rest with
        | 'r' :: 'u' :: 'e' :: r => some (.bool true, r)
        | _ => none
      else if c = 'f' then
        match rest with
        | 'a' :: 'l' :: 's' :: 'e' :: r => some (.bool false, r)
        | _ => none
      else if c = '"' then
        match parseStrBody (rest.length + 1) rest with
        | none => none
        | some (s, r) => some (.str (String.mk s), r)
      else if c = '-' then
        match takeDigits rest with
        | ([], _) => none
        | (ds, r) => some (.num (-(digitsVal ds 0 : Int)), r)
      else if c.isDigit then
        match takeDigits rest with
        | (ds, r) => some (.num (digitsVal (c :: ds) 0), r)
      else if c = '[' then
        match rest with
        | [] => none
        | d :: r0 =>
            if d = ']' then some (.arr [], r0)
            else
              match parseVal f rest with
              | none => none
              | some (x, r) =>
                  match parseArrTail f r with
                  | none => none
                  | some (xs, r') => some (.arr (x :: xs), r')
      else if c = lbrace then
        match rest with
        | [] => none
        | d :: r0 =>
            if d = rbrace then some (.obj [], r0)
            else
              match parseMember f rest with
              | none => none
              | some (kv, r) =>
                  match parseObjTail f r with
                  | none => none
                  | some (kvs, r') => some (.obj (kv :: kvs), r')
      else none) := rfl

/-- The parser recovers every printed value, leaving the rest of the
input untouched, whenever the fuel exceeds the input length and the
rest does not begin with a digit. -/
theorem parse_encVal : ∀ (n : Nat) (j : Json), sizeOf j ≤ n →
    ∀ (fuel : Nat) (rest : List Char), (encVal j ++ rest).length < fuel →
    headNotDigit rest = true →
    parseVal fuel (encVal j ++ rest) = some (j, rest) := by
  intro n
  induction n using Nat.strong_induction_on with
  | _ n ih =>
      intro j hj fuel rest hlen hnd
      cases fuel with
      | zero => exact absurd hlen (Nat.not_lt_zero _)
      | succ f =>
          cases j with
          | null => exact rfl
          | bool b => cases b <;> exact rfl
          | num m =>
              cases m with
              | ofNat k =>
                  obtain ⟨c, cs, hcs, hcdig⟩ := natChars_cons k
                  have henc : encVal (.num (.ofNat k)) = c :: cs := by
                    rw [show encVal (.num (.ofNat k)) = natChars k from rfl,
                      hcs]
                  rw [henc, List.cons_append, parseVal_cons_eq]
                  have h1 : c ≠ 'n' := fun he =>
                    absurd (he ▸ hcdig) (by decide)
                  have h2 : c ≠ 't' := fun he =>
                    absurd (he ▸ hcdig) (by decide)
                  have h3 : c ≠ 'f' := fun he =>
                    absurd (he ▸ hcdig) (by decide)
                  have h4 : c ≠ '"' := fun he =>
                    absurd (he ▸ hcdig) (by decide)
                  have h5 : c ≠ '-' := fun he =>
                    absurd (he ▸ hcdig) (by decide)
                  rw [if_neg h1, if_neg h2, if_neg h3, if_neg h4, if_neg h5,
                    if_pos hcdig]
                  have htd : takeDigits (cs ++ rest) = (cs, rest) :=
                    takeDigits_split cs rest
                      (fun x hx => natChars_digits k x
                        (by rw [hcs]; exact List.mem_cons_of_mem _ hx)) hnd
                  rw [htd]
                  dsimp only
                  rw [← hcs, digitsVal_natChars]
                  rfl
              | negSucc p =>
                  have henc : encVal (.num (.negSucc p))
                      = '-' :: natChars (p + 1) := rfl
                  obtain ⟨c, cs, hcs, hcdig⟩ := natChars_cons (p + 1)
                  rw [henc, List.cons_append, parseVal_cons_eq]
                  rw [if_neg (by decide), if_neg (by decide),
                    if_neg (by decide), if_neg (by decide), if_pos rfl]
                  have htd : takeDigits (natChars (p + 1) ++ rest)
                      = (natChars (p + 1), rest) :=
                    takeDigits_split _ rest
                      (fun x hx => natChars_digits (p + 1) x hx) hnd
                  rw [hcs, List.cons_append] at htd ⊢
                  rw [htd]
                  dsimp only
                  rw [← hcs, digitsVal_natChars]
                  have hneg : -((p + 1 : Nat) : Int) = Int.negSucc p := by
                    rw [Int.negSucc_eq]
                    push_cast
                    ring
                  rw [hneg]
          | str s =>
              have henc : encVal (.str s)
                  = '"' :: (escStr s.data ++ ['"']) := rfl
              have hsh : (escStr s.data ++ ['"']) ++ rest
                  = escStr s.data ++ ('"' :: rest) := by
                rw [List.append_assoc, List.singleton_append]
              rw [henc, List.cons_append, hsh, parseVal_cons_eq]
              rw [if_neg (by decide), if_neg (by decide), if_neg (by decide),
                if_pos rfl]
              rw [parseStrBody_escStr s.data _ rest (by simp; omega)]
          | arr xs =>
              cases xs with
              | nil => exact rfl
              | cons x xs' =>
                  have henc : encVal (.arr (x :: xs'))
                      = '[' :: (encItems (x :: xs') ++ [']']) := rfl
                  have hsh : ((encVal x ++ encItemsTail xs') ++ [']']) ++ rest
                      = encVal x ++ (encItemsTail xs' ++ (']' :: rest)) := by
                    rw [List.append_assoc, List.append_assoc,
                      List.singleton_append]
                  rw [henc, List.cons_append, encItems_cons xs' x, hsh]
                    at hlen ⊢
                  simp only [List.length_cons] at hlen
                  have hxlen : 0 < (encVal x).length := by
                    obtain ⟨c, cs, hcx, -⟩ := encVal_head x
                    rw [hcx]
                    simp
                  have hszx : sizeOf x < n := by
                    simp at hj
                    omega
                  have hPx := ih (sizeOf x) hszx x le_rfl f
                    (encItemsTail xs' ++ ']' :: rest)
                    (by simp at hlen ⊢; omega)
                    (headNotDigit_itemsTail xs' rest)
                  rw [parseVal_cons_eq]
                  rw [if_neg (by decide), if_neg (by decide),
                    if_neg (by decide), if_neg (by decide),
                    if_neg (by decide), if_neg (by decide), if_pos rfl]
                  obtain ⟨c, cs, hcx, hcne⟩ := encVal_head x
                  rw [hcx, List.cons_append]
                  dsimp only
                  rw [if_neg hcne, ← List.cons_append, ← hcx, hPx]
                  dsimp only
                  rw [parseArrTail_enc xs'
                    (fun y hy => ih (sizeOf y)
                      (by
                        have := List.sizeOf_lt_of_mem hy
                        simp at hj
                        omega) y le_rfl)
                    f rest (by simp at hlen ⊢; omega)]
          | obj gs =>
              cases gs with
              | nil => exact rfl
              | cons kv gs' =>
                  obtain ⟨k, v⟩ := kv
                  have henc : encVal (.obj ((k, v) :: gs'))
                      = lbrace :: (encFields ((k, v) :: gs') ++ [rbrace]) :=
                    rfl
                  have hsh : (('"' :: (escStr k.data ++ ('"' :: (':' ::
                        (encVal v ++ encFieldsTail gs'))))) ++ [rbrace])
                        ++ rest
                      = '"' :: (escStr k.data ++ ('"' :: (':' ::
                          (encVal v ++ (encFieldsTail gs'
                            ++ (rbrace :: rest)))))) := by
                    simp [List.append_assoc]
                  rw [henc, List.cons_append, encFields_cons gs' k v, hsh]
                    at hlen ⊢
                  simp only [List.length_cons] at hlen
                  have hszv : sizeOf v < n := by
                    simp at hj
                    omega
                  have hPv := ih (sizeOf v) hszv v le_rfl
                  rw [parseVal_cons_eq]
                  rw [if_neg (by decide), if_neg (by decide),
                    if_neg (by decide), if_neg (by decide),
                    if_neg (by decide), if_neg (by decide),
                    if_neg (by decide), if_pos rfl]
                  dsimp only
                  rw [if_neg (by decide : ('"' : Char) ≠ rbrace)]
                  rw [parseMember_enc k v hPv f
                    (encFieldsTail gs' ++ rbrace :: rest)
                    (by simp at hlen ⊢; omega)
                    (headNotDigit_fieldsTail gs' rest)]
                  dsimp only
                  rw [parseObjTail_enc gs'
                    (fun kw hk => by
                      obtain ⟨kk, vv⟩ := kw
                      exact ih (sizeOf vv)
                        (by
                          have := List.sizeOf_lt_of_mem hk
                          simp at hj this
                          omega) vv le_rfl)
                    f rest (by simp at hlen ⊢; omega)]

/-- JSON.parse inverts JSON.stringify on every value. -/
theorem parse_stringify (j : Json) :
    Json.parse (Json.stringify j) = some j := by
  unfold Json.parse Json.stringify
  have h := parse_encVal (sizeOf j) j le_rfl ((encVal j).length + 1) []
    (by simp) rfl
  rw [List.append_nil] at h
  rw [show (String.mk (encVal j)).data = encVal j from rfl, h]

/-- A field already holding an array is left alone by `ensureArr`. -/
theorem ensureArr_of_arr (fs : List (String × Json)) (key : String)
    (h : isArrOpt (getField fs key) = true) : ensureArr fs key = fs := by
  unfold ensureArr
  cases hg : getField fs key with
  | none => rw [hg] at h; simp [isArrOpt] at h
  | some v =>
      cases v <;> rw [hg] at h <;> simp [isArrOpt] at h

/-- Normalization is the identity on structurally valid snapshots. -/
theorem ensureStructure_of_valid (d : Json)
    (h : isValidStructure d = true) : ensureStructure d = d := by
  cases d with
  | obj fs =>
      simp only [isValidStructure, Bool.and_eq_true] at h
      obtain ⟨⟨⟨h1, h2⟩, h3⟩, h4⟩ := h
      show Json.obj (ensureArr (ensureArr (ensureArr (ensureArr fs
        "videos") "screenshots") "posts") "streams") = Json.obj fs
      rw [ensureArr_of_arr fs "videos" h1,
        ensureArr_of_arr fs "screenshots" h2,
        ensureArr_of_arr fs "posts" h3,
        ensureArr_of_arr fs "streams" h4]
  | null => simp [isValidStructure] at h
  | bool b => simp [isValidStructure] at h
  | num m => simp [isValidStructure] at h
  | str s => simp [isValidStructure] at h
  | arr xs => simp [isValidStructure] at h

/-- C4: export/import round-trip.  For every structurally valid
snapshot, feeding the bytes produced by `exportJSON` straight back into
`importJSON` succeeds and yields a snapshot deep-equal to (and here
literally equal to) the pre-export snapshot, in memory and as the
resolved value. -/
theorem export_import_roundtrip (d : Json)
    (h : isValidStructure d = true) :
    importJSON d (.text (exportJSON d)) = (.ok d, d) := by
  unfold importJSON exportJSON
  dsimp only
  rw [parse_stringify d]
  dsimp only
  rw [ensureStructure_of_valid d h]

/-- Witness for C4 on a concrete snapshot exercising strings with an
escape, booleans, numbers, arrays and nested objects. -/
theorem export_import_roundtrip_witness :
    importJSON
        (.obj [("videos", .arr [.obj [("id", .str "a"),
            ("title", .str "say \"hi\""), ("isLive", .bool true),
            ("n", .num (-12))]]),
          ("screenshots", .arr []), ("posts", .arr []),
          ("streams", .arr [.null])])
        (.text (exportJSON
          (.obj [("videos", .arr [.obj [("id", .str "a"),
              ("title", .str "say \"hi\""), ("isLive", .bool true),
              ("n", .num (-12))]]),
            ("screenshots", .arr []), ("posts", .arr []),
            ("streams", .arr [.null])]))) =
      (.ok (.obj [("videos", .arr [.obj [("id", .str "a"),
            ("title", .str "say \"hi\""), ("isLive", .bool true),
            ("n", .num (-12))]]),
          ("screenshots", .arr []), ("posts", .arr []),
          ("streams", .arr [.null])]),
        .obj [("videos", .arr [.obj [("id", .str "a"),
            ("title", .str "say \"hi\""), ("isLive", .bool true),
            ("n", .num (-12))]]),
          ("screenshots", .arr []), ("posts", .arr []),
          ("streams", .arr [.null])]) :=
  export_import_roundtrip
    (.obj [("videos", .arr [.obj [("id", .str "a"),
        ("title", .str "say \"hi\""), ("isLive", .bool true),
        ("n", .num (-12))]]),
      ("screenshots", .arr []), ("posts", .arr []),
      ("streams", .arr [.null])])
    (by rfl)

example : Json.parse "null" = some .null := rfl

example : Json.parse "[true,\"a\",-12]" =
    some (.arr [.bool true, .str "a", .num (-12)]) := rfl

example : Json.parse "\x7bnot valid json" = none := rfl

example :
    Json.parse (Json.stringify (.obj [("a", .arr [.num 10, .null])])) =
      some (.obj [("a", .arr [.num 10, .null])]) := rfl

end MonkataCraft
